import Mathlib

/-!
Verification of the gh-node-api repository: a thin HTTP proxy over the
GitHub user endpoints.  The development embeds, as Lean functions, the
recursive key-casing transformer (`src/utils/toCamelCaseParser.js`), the
declarative validation rule set and the two route handlers of
`src/routes` (the `/users` and `/users/:username` endpoints), and the
404 fallback middleware of `src/index.js`, and proves the behavioural
properties claimed of them.
-/

/-- A JSON-like value: object (string-keyed mapping), array, or scalar
(string, number, boolean, null).  Objects are association lists in
visitation order; JavaScript objects never hold the same key twice, but
the embedding does not need that assumption. -/
inductive Json where
  | str (s : String)
  | num (n : Int)
  | bool (b : Bool)
  | null
  | arr (elems : List Json)
  | obj (entries : List (String × Json))

/-- A character the casing regex treats as a word delimiter: the class
`[-_]` of `/([-_][a-z])/gi`. -/
def isDelim (c : Char) : Bool := c = '-' || c = '_'

/-- An ASCII letter: the class `[a-z]` under the `i` flag of
`/([-_][a-z])/gi`. -/
def isAsciiAlpha (c : Char) : Bool :=
  ('a' ≤ c && c ≤ 'z') || ('A' ≤ c && c ≤ 'Z')

/-- Left-to-right, non-overlapping global replacement performed by
`key.replace(/([-_][a-z])/gi, $1 => $1.toUpperCase().replace('-', '').replace('_', ''))`:
each delimiter immediately followed by an ASCII letter is replaced by
that letter uppercased, the delimiter dropped. -/
def camelChars : List Char → List Char
  | [] => []
  | [c] => [c]
  | c :: d :: rest =>
    if isDelim c && isAsciiAlpha d then d.toUpper :: camelChars rest
    else c :: camelChars (d :: rest)

/-- The rewritten object key (`camelCaseKey` in `toCamelCaseParser.js`). -/
def camelCaseKey (key : String) : String := ⟨camelChars key.data⟩

/-- JavaScript property assignment `result[camelCaseKey] = value` on the
object built by the `reduce`: an existing key keeps its position and the
value is overwritten; a new key is appended. -/
def objInsert (acc : List (String × Json)) (k : String) (v : Json) :
    List (String × Json) :=
  if acc.any (fun p => p.1 = k) then
    acc.map (fun p => if p.1 = k then (k, v) else p)
  else
    acc ++ [(k, v)]

mutual

/-- `toCamelCaseParser` of `src/utils/toCamelCaseParser.js`: scalars are
returned unchanged, arrays are mapped recursively, and objects are
rebuilt by `Object.keys(param).reduce`, inserting each rewritten key
with its recursively transformed value. -/
def toCamelCaseParser : Json → Json
  | .str s => .str s
  | .num n => .num n
  | .bool b => .bool b
  | .null => .null
  | .arr elems => .arr (camelArr elems)
  | .obj entries => .obj (camelObj [] entries)

/-- `param.map(toCamelCaseParser)` on an array. -/
def camelArr : List Json → List Json
  | [] => []
  | x :: xs => toCamelCaseParser x :: camelArr xs

/-- The `reduce` over `Object.keys(param)`: `acc` is the object built so
far, and each entry contributes its camel-cased key and transformed
value via `objInsert`. -/
def camelObj (acc : List (String × Json)) :
    List (String × Json) → List (String × Json)
  | [] => acc
  | (k, v) :: rest =>
    camelObj (objInsert acc (camelCaseKey k) (toCamelCaseParser v)) rest

end

/-- Folding `objInsert` over an already-built list of entries; `camelObj`
is this fold applied to the entries with keys rewritten and values
transformed. -/
def insertList (acc : List (String × Json)) :
    List (String × Json) → List (String × Json)
  | [] => acc
  | (k, v) :: rest => insertList (objInsert acc k v) rest

/-- Number of keys of a top-level object (a non-object has none). -/
def topKeyCount : Json → Nat
  | .obj entries => entries.length
  | _ => 0

/-- The value bound to a key in an object entry list: the value of the
first entry holding that key. -/
def lookupKey : List (String × Json) → String → Option Json
  | [], _ => none
  | (k, v) :: rest, c => if c = k then some v else lookupKey rest c

mutual

/-- The shape of a JSON-like value: every object key is blanked out,
everything else (array lengths, nesting, leaf values, key counts) is
kept.  Two values have equal shape exactly when they differ only in key
spelling. -/
def shape : Json → Json
  | .str s => .str s
  | .num n => .num n
  | .bool b => .bool b
  | .null => .null
  | .arr elems => .arr (shapeArr elems)
  | .obj entries => .obj (shapeObj entries)

/-- Shapes of the elements of an array. -/
def shapeArr : List Json → List Json
  | [] => []
  | x :: xs => shape x :: shapeArr xs

/-- Shapes of the entries of an object, keys blanked. -/
def shapeObj : List (String × Json) → List (String × Json)
  | [] => []
  | (_, v) :: rest => ("", shape v) :: shapeObj rest

end

/-- No position of the character list holds a delimiter immediately
followed by an ASCII letter, so the casing regex has nothing to match. -/
def noDelimLetter : List Char → Bool
  | [] => true
  | [_] => true
  | c :: d :: rest => !(isDelim c && isAsciiAlpha d) && noDelimLetter (d :: rest)

mutual

/-- Every object key, at every nesting level, is already fully
camel-cased: it holds no delimiter followed by a letter. -/
def keysCamel : Json → Bool
  | .str _ => true
  | .num _ => true
  | .bool _ => true
  | .null => true
  | .arr elems => keysCamelArr elems
  | .obj entries => keysCamelObj entries

/-- `keysCamel` on every element of an array. -/
def keysCamelArr : List Json → Bool
  | [] => true
  | x :: xs => keysCamel x && keysCamelArr xs

/-- `keysCamel` on every entry of an object, and every key of the object
holds no delimiter followed by a letter. -/
def keysCamelObj : List (String × Json) → Bool
  | [] => true
  | (k, v) :: rest => noDelimLetter k.data && keysCamel v && keysCamelObj rest

end

/-- No string occurs twice in the list. -/
def distinctList : List String → Bool
  | [] => true
  | s :: rest => !rest.contains s && distinctList rest

mutual

/-- Within each object of the value, at every nesting level, no two
entries rewrite to the same camel-cased key. -/
def camelKeysInjective : Json → Bool
  | .str _ => true
  | .num _ => true
  | .bool _ => true
  | .null => true
  | .arr elems => camelKeysInjectiveArr elems
  | .obj entries =>
    distinctList (entries.map (fun p => camelCaseKey p.1)) &&
      camelKeysInjectiveObj entries

/-- `camelKeysInjective` on every element of an array. -/
def camelKeysInjectiveArr : List Json → Bool
  | [] => true
  | x :: xs => camelKeysInjective x && camelKeysInjectiveArr xs

/-- `camelKeysInjective` on every value of an object. -/
def camelKeysInjectiveObj : List (String × Json) → Bool
  | [] => true
  | (_, v) :: rest => camelKeysInjective v && camelKeysInjectiveObj rest

end

/-! ### Request validation (`src/routes/users.routes.js`)

A query is the mapping from parameter name to raw string value carried
by one request.  Each `express-validator` chain of the `/users` route is
embedded as a function returning the failures it contributes; the
validator runs every chain and aggregates all failures in chain order. -/

/-- Inbound request parameters: parameter name to raw string value. -/
def Query : Type := String → Option String

/-- The query holding exactly the given parameters, for concrete
requests. -/
def qOf (params : List (String × String)) : Query :=
  fun name => params.lookup name

/-- The same query with one parameter set to a new value (or removed,
when the new value is `none`). -/
def setParam (q : Query) (name : String) (v : Option String) : Query :=
  fun k => if k = name then v else q k

/-- One structured validation failure, as `validationResult(req).array()`
reports it: the offending value, the message of the violated rule, the
parameter name and its location. -/
structure ValidationError where
  value : Option String
  msg : String
  param : String
  location : String
deriving DecidableEq, Repr

/-- `validator.js` integer syntax `/^[+-]?[0-9]+$/` with its numeric
value: the digits of the string after an optional sign. -/
def digitsToNat : List Char → Option Nat
  | [] => none
  | l =>
    if l.all (fun c => '0' ≤ c && c ≤ '9') then
      some (l.foldl (fun a c => a * 10 + (c.toNat - 48)) 0)
    else none

/-- The integer a query-string value denotes for `isInt`, when it is one. -/
def parseIntStr (s : String) : Option Int :=
  match s.data with
  | '+' :: rest => (digitsToNat rest).map Int.ofNat
  | '-' :: rest => (digitsToNat rest).map (fun n => -(n : Int))
  | l => (digitsToNat l).map Int.ofNat

def perPageError (v : String) : ValidationError :=
  ⟨some v, "perPage must be an integer between 1 and 100", "perPage", "query"⟩

def sinceError (v : String) : ValidationError :=
  ⟨some v, "since must be an integer greater than 0", "since", "query"⟩

def searchError (v : String) : ValidationError :=
  ⟨some v, "search must be a string with at least 3 characters", "search", "query"⟩

def sortError (v : String) : ValidationError :=
  ⟨some v,
    "sort must be one of the following values: followers, repositories, joined",
    "sort", "query"⟩

def orderError (v : String) : ValidationError :=
  ⟨some v, "order must be one of the following values: asc, desc", "order", "query"⟩

def pageError (v : String) : ValidationError :=
  ⟨some v, "page must be an integer greater than 0", "page", "query"⟩

def usernameError (v : String) : ValidationError :=
  ⟨some v, "Username must be a valid github username", "username", "params"⟩

/-- `query('perPage').optional().default(30).isInt({ min: 1, max: 100 })`:
an absent (or empty, per the `default` sanitizer) value is replaced by 30
and passes; otherwise the raw value must be an integer in [1, 100]. -/
def checkPerPage (q : Query) : List ValidationError :=
  match q "perPage" with
  | none => []
  | some "" => []
  | some v =>
    match parseIntStr v with
    | some n => if 1 ≤ n ∧ n ≤ 100 then [] else [perPageError v]
    | none => [perPageError v]

/-- `query('since').optional().if(query('search').not().exists()).isInt({ min: 0 })`:
the chain runs only when `search` is absent; then an absent `since`
passes and a present one must be an integer ≥ 0. -/
def checkSince (q : Query) : List ValidationError :=
  match q "search" with
  | some _ => []
  | none =>
    match q "since" with
    | none => []
    | some v =>
      match parseIntStr v with
      | some n => if 0 ≤ n then [] else [sinceError v]
      | none => [sinceError v]

/-- `query('search').optional().isString().isLength({ min: 3 })`. -/
def checkSearch (q : Query) : List ValidationError :=
  match q "search" with
  | none => []
  | some v => if 3 ≤ v.length then [] else [searchError v]

/-- `query('sort').if(query('search').exists()).optional().isIn([...])`:
the chain runs only when `search` is present. -/
def checkSort (q : Query) : List ValidationError :=
  match q "search" with
  | none => []
  | some _ =>
    match q "sort" with
    | none => []
    | some v =>
      if ["followers", "repositories", "joined"].contains v then []
      else [sortError v]

/-- `query('order').if(query('search').exists()).optional().isIn(['asc', 'desc'])`. -/
def checkOrder (q : Query) : List ValidationError :=
  match q "search" with
  | none => []
  | some _ =>
    match q "order" with
    | none => []
    | some v => if ["asc", "desc"].contains v then [] else [orderError v]

/-- `query('page').if(query('search').exists()).optional().isInt({ min: 1 })`. -/
def checkPage (q : Query) : List ValidationError :=
  match q "search" with
  | none => []
  | some _ =>
    match q "page" with
    | none => []
    | some v =>
      match parseIntStr v with
      | some n => if 1 ≤ n then [] else [pageError v]
      | none => [pageError v]

/-- `validationResult(req)` for the `/users` route: every chain is
evaluated and all failures are aggregated in chain order. -/
def validateUsers (q : Query) : List ValidationError :=
  checkPerPage q ++ checkSince q ++ checkSearch q ++ checkSort q ++
    checkOrder q ++ checkPage q

/-- ASCII digit. -/
def isAsciiDigit (c : Char) : Bool := '0' ≤ c && c ≤ '9'

/-- ASCII letter or digit. -/
def isAsciiAlnum (c : Char) : Bool := isAsciiAlpha c || isAsciiDigit c

/-- Modelled from the spec: the tail of the `github-username-regex`
pattern, whose source (the npm package) is not part of the repository;
per the spec a valid username is alphanumeric and single hyphens with no
leading, trailing or double hyphen.  Each character is alphanumeric, or
a hyphen immediately followed by an alphanumeric character. -/
def usernameTail : List Char → Bool
  | [] => true
  | c :: rest =>
    if isAsciiAlnum c then usernameTail rest
    else if c = '-' then
      match rest with
      | [] => false
      | d :: _ => isAsciiAlnum d && usernameTail rest
    else false

/-- Modelled from the spec: the platform valid-username pattern matched
by `param('username').matches(githubUsernameRegex)`; the
`github-username-regex` npm package is not part of the repository
sources.  Per the spec: alphanumeric and single hyphens, no leading,
trailing or double hyphen, 1 to 39 characters. -/
def isGithubUsername (u : String) : Bool :=
  match u.data with
  | [] => false
  | c :: rest => isAsciiAlnum c && rest.length ≤ 38 && usernameTail rest

/-- `param('username').isString().matches(githubUsernameRegex)`. -/
def checkUsername (u : String) : List ValidationError :=
  if isGithubUsername u then [] else [usernameError u]

/-! ### Route handlers -/

/-- The JavaScript truthiness test `if (search)` on a possibly absent
query-string value: absent and empty strings are falsy. -/
def truthy : Option String → Bool
  | none => false
  | some s => !(s == "")

/-- `req.query.perPage` as the upstream call reads it, after the
`default(30)` sanitizer ran: 30 when the parameter was absent or empty. -/
def effPerPage (q : Query) : String :=
  match q "perPage" with
  | none => "30"
  | some "" => "30"
  | some v => v

/-- The single outbound Octokit request a validated `/users` request
issues: `GET /users` with `since` and `per_page`, or `GET /search/users`
with the composed query string, `sort`, `order`, `page` and `per_page`. -/
inductive UpstreamCall where
  | listUsers (since : Option String) (per_page : String)
  | searchUsers (q : String) (sort : Option String) (order : Option String)
      (page : Option String) (per_page : String)
deriving DecidableEq, Repr

/-- What the `/users` handler decides before any network traffic:
reject with the aggregated failures, or issue exactly one upstream call. -/
inductive UsersResult where
  | badRequest (errors : List ValidationError)
  | upstream (call : UpstreamCall)
deriving DecidableEq, Repr

/-- The `/users` handler up to its single upstream call:
`if (!errors.isEmpty()) return res.status(400).json({ errors });` and
otherwise the `if (search)` dispatch between `GET /search/users` and
`GET /users`. -/
def routeUsers (q : Query) : UsersResult :=
  if validateUsers q = [] then
    if truthy (q "search") then
      .upstream (.searchUsers
        (((q "search").getD "") ++ " in:login name email type:user")
        (q "sort") (q "order") (q "page") (effPerPage q))
    else
      .upstream (.listUsers (q "since") (effPerPage q))
  else
    .badRequest (validateUsers q)

/-- What the `/users/:username` handler decides before any network
traffic. -/
inductive UserStep where
  | badRequest (errors : List ValidationError)
  | callGetUser (username : String)
deriving DecidableEq, Repr

/-- The `/users/:username` handler up to its single upstream call
(`GET /users/{username}`). -/
def routeUserStep (username : String) : UserStep :=
  if checkUsername username = [] then .callGetUser username
  else .badRequest (checkUsername username)

/-- An HTTP response: status code and JSON body. -/
structure HttpResponse where
  status : Nat
  body : Json

/-- The JSON rendering of one validation failure. -/
def errJson (e : ValidationError) : Json :=
  .obj [("value", match e.value with | some v => .str v | none => .null),
        ("msg", .str e.msg), ("param", .str e.param),
        ("location", .str e.location)]

/-- The `res.status(400).json({ errors: errors.array() })` body. -/
def errorsBody (errs : List ValidationError) : Json :=
  .obj [("errors", .arr (errs.map errJson))]

/-- A one-field error body such as `{ error: 'User not found' }`. -/
def jsonError (s : String) : Json := .obj [("error", .str s)]

/-- The full `/users` response given the upstream response data:
400 with the aggregated failures, or `res.send(toCamelCaseParser(response.data))`. -/
def usersResponse (q : Query) (upstreamData : Json) : HttpResponse :=
  match routeUsers q with
  | .badRequest errs => ⟨400, errorsBody errs⟩
  | .upstream _ => ⟨200, toCamelCaseParser upstreamData⟩

/-- The full `/users/:username` response given the upstream outcome
(success data, or a thrown error carrying `error.status`): 400 on an
invalid username; otherwise 200 with the transformed data, 404 with
`{ error: 'User not found' }` when `error.status === 404`, and 500 with
`{ error: 'Something went wrong' }` on any other upstream failure. -/
def userResponse (username : String) (upstream : Except Nat Json) :
    HttpResponse :=
  match routeUserStep username with
  | .badRequest errs => ⟨400, errorsBody errs⟩
  | .callGetUser _ =>
    match upstream with
    | .ok body => ⟨200, toCamelCaseParser body⟩
    | .error status =>
      if status = 404 then ⟨404, jsonError "User not found"⟩
      else ⟨500, jsonError "Something went wrong"⟩

/-! ### The 404 fallback middleware (`src/index.js`) -/

/-- The response the fallback middleware builds: the status set by
`res.status(404)`, the redirect target when `res.redirect('/docs')` was
called, and the JSON body when `res.send(...)` was called. -/
structure FallbackResponse where
  status : Nat
  redirectTo : Option String
  body : Option Json

/-- The unmatched-route middleware of `src/index.js`: sets status 404;
an HTML-accepting caller is redirected to `/docs`, any other caller
receives the JSON body `{ error: "Resource isn't found" }`. -/
def notFoundMiddleware (acceptsHtml : Bool) : FallbackResponse :=
  if acceptsHtml then ⟨404, some "/docs", none⟩
  else ⟨404, none, some (jsonError "Resource isn\x27t found")⟩

/-! ### Lemmas about the key rewrite -/

theorem camelChars_of_noDelimLetter :
    ∀ l : List Char, noDelimLetter l = true → camelChars l = l := by
  intro l
  induction l with
  | nil => intro _; rfl
  | cons c rest ih =>
    intro h
    match rest, ih with
    | [], _ => rfl
    | d :: rest, ih =>
      simp only [noDelimLetter, Bool.and_eq_true, Bool.not_eq_true'] at h
      simp only [camelChars, h.1, Bool.false_eq_true, if_false, List.cons.injEq,
        true_and]
      exact ih h.2

theorem camelCaseKey_of_noDelimLetter (s : String)
    (h : noDelimLetter s.data = true) : camelCaseKey s = s := by
  obtain ⟨data⟩ := s
  simp only [camelCaseKey]
  exact congrArg String.mk (camelChars_of_noDelimLetter data h)

/-! ### A membership induction principle for `Json` -/

theorem json_mem_ind (P : Json → Prop)
    (hstr : ∀ s, P (.str s)) (hnum : ∀ n, P (.num n))
    (hbool : ∀ b, P (.bool b)) (hnull : P .null)
    (harr : ∀ elems, (∀ x ∈ elems, P x) → P (.arr elems))
    (hobj : ∀ entries, (∀ kv ∈ entries, P kv.2) → P (.obj entries)) :
    ∀ v, P v := by
  have key : ∀ n (v : Json), sizeOf v ≤ n → P v := by
    intro n
    induction n using Nat.strong_induction_on with
    | _ n ih =>
      intro v hv
      match v with
      | .str s => exact hstr s
      | .num m => exact hnum m
      | .bool b => exact hbool b
      | .null => exact hnull
      | .arr elems =>
        refine harr elems (fun x hx => ?_)
        have hlt : sizeOf x < sizeOf (Json.arr elems) := by
          have := List.sizeOf_lt_of_mem hx
          simp only [Json.arr.sizeOf_spec]
          omega
        exact ih (sizeOf x) (by omega) x (le_refl _)
      | .obj entries =>
        refine hobj entries (fun kv hkv => ?_)
        obtain ⟨k, w⟩ := kv
        have hm := List.sizeOf_lt_of_mem hkv
        have hlt : sizeOf w < sizeOf (Json.obj entries) := by
          simp only [Json.obj.sizeOf_spec, Prod.mk.sizeOf_spec] at *
          omega
        exact ih (sizeOf w) (by omega) w (le_refl _)
  exact fun v => key (sizeOf v) v (le_refl _)

/-! ### The mutual recursions as list operations -/

theorem camelArr_eq_map (elems : List Json) :
    camelArr elems = elems.map toCamelCaseParser := by
  induction elems with
  | nil => rfl
  | cons x xs ih => simp only [camelArr, List.map_cons, ih]

theorem camelObj_eq_insertList :
    ∀ (entries : List (String × Json)) (acc : List (String × Json)),
      camelObj acc entries =
        insertList acc
          (entries.map (fun p => (camelCaseKey p.1, toCamelCaseParser p.2))) := by
  intro entries
  induction entries with
  | nil => intro acc; rfl
  | cons p rest ih =>
    intro acc
    obtain ⟨k, v⟩ := p
    simp only [camelObj, List.map_cons, insertList]
    exact ih _

theorem shapeArr_eq_map (elems : List Json) :
    shapeArr elems = elems.map shape := by
  induction elems with
  | nil => rfl
  | cons x xs ih => simp only [shapeArr, List.map_cons, ih]

theorem shapeObj_eq_map (entries : List (String × Json)) :
    shapeObj entries = entries.map (fun p => ("", shape p.2)) := by
  induction entries with
  | nil => rfl
  | cons p rest ih =>
    obtain ⟨k, v⟩ := p
    simp only [shapeObj, List.map_cons, ih]

theorem keysCamelArr_iff (elems : List Json) :
    keysCamelArr elems = true ↔ ∀ x ∈ elems, keysCamel x = true := by
  induction elems with
  | nil => simp [keysCamelArr]
  | cons x xs ih =>
    simp only [keysCamelArr, Bool.and_eq_true, ih, List.mem_cons]
    constructor
    · rintro ⟨h1, h2⟩ y (rfl | hy)
      · exact h1
      · exact h2 y hy
    · intro h
      exact ⟨h x (Or.inl rfl), fun y hy => h y (Or.inr hy)⟩

theorem keysCamelObj_iff (entries : List (String × Json)) :
    keysCamelObj entries = true ↔
      ∀ kv ∈ entries, noDelimLetter kv.1.data = true ∧ keysCamel kv.2 = true := by
  induction entries with
  | nil => simp [keysCamelObj]
  | cons p rest ih =>
    obtain ⟨k, v⟩ := p
    simp only [keysCamelObj, Bool.and_eq_true, ih, List.mem_cons]
    constructor
    · rintro ⟨⟨h1, h2⟩, h3⟩ kv (rfl | hkv)
      · exact ⟨h1, h2⟩
      · exact h3 kv hkv
    · intro h
      exact ⟨⟨(h (k, v) (Or.inl rfl)).1, (h (k, v) (Or.inl rfl)).2⟩,
        fun kv hkv => h kv (Or.inr hkv)⟩

theorem camelKeysInjectiveArr_iff (elems : List Json) :
    camelKeysInjectiveArr elems = true ↔
      ∀ x ∈ elems, camelKeysInjective x = true := by
  induction elems with
  | nil => simp [camelKeysInjectiveArr]
  | cons x xs ih =>
    simp only [camelKeysInjectiveArr, Bool.and_eq_true, ih, List.mem_cons]
    constructor
    · rintro ⟨h1, h2⟩ y (rfl | hy)
      · exact h1
      · exact h2 y hy
    · intro h
      exact ⟨h x (Or.inl rfl), fun y hy => h y (Or.inr hy)⟩

theorem camelKeysInjectiveObj_iff (entries : List (String × Json)) :
    camelKeysInjectiveObj entries = true ↔
      ∀ kv ∈ entries, camelKeysInjective kv.2 = true := by
  induction entries with
  | nil => simp [camelKeysInjectiveObj]
  | cons p rest ih =>
    obtain ⟨k, v⟩ := p
    simp only [camelKeysInjectiveObj, Bool.and_eq_true, ih, List.mem_cons]
    constructor
    · rintro ⟨h1, h2⟩ kv (rfl | hkv)
      · exact h1
      · exact h2 kv hkv
    · intro h
      exact ⟨h (k, v) (Or.inl rfl), fun kv hkv => h kv (Or.inr hkv)⟩

theorem distinctList_iff_nodup (l : List String) :
    distinctList l = true ↔ l.Nodup := by
  induction l with
  | nil => simp [distinctList]
  | cons s rest ih =>
    simp only [distinctList, Bool.and_eq_true, Bool.not_eq_true', ih,
      List.nodup_cons]
    constructor
    · rintro ⟨h1, h2⟩
      refine ⟨fun hm => ?_, h2⟩
      rw [← List.elem_iff] at hm
      simp only [List.contains] at h1
      rw [hm] at h1
      cases h1
    · rintro ⟨h1, h2⟩
      refine ⟨?_, h2⟩
      simp only [List.contains]
      rw [← List.elem_iff] at h1
      cases he : rest.elem s
      · rfl
      · exact absurd he h1

/-! ### Lemmas about `objInsert` and `insertList` -/

theorem objInsert_keys (acc : List (String × Json)) (k : String) (v : Json) :
    (objInsert acc k v).map Prod.fst =
      if k ∈ acc.map Prod.fst then acc.map Prod.fst
      else acc.map Prod.fst ++ [k] := by
  unfold objInsert
  by_cases h : k ∈ acc.map Prod.fst
  · rw [if_pos h]
    have hany : acc.any (fun p => p.1 = k) = true := by
      rw [List.any_eq_true]
      obtain ⟨p, hp, hpk⟩ := List.mem_map.mp h
      exact ⟨p, hp, by simp [hpk]⟩
    rw [if_pos hany, List.map_map]
    refine List.map_congr_left (fun p _ => ?_)
    by_cases hpk : p.1 = k
    · simp [hpk]
    · simp [hpk]
  · rw [if_neg h]
    have hany : ¬ (acc.any (fun p => p.1 = k) = true) := by
      rw [List.any_eq_true]
      rintro ⟨p, hp, hpk⟩
      simp only [decide_eq_true_eq] at hpk
      exact h (List.mem_map.mpr ⟨p, hp, hpk⟩)
    rw [if_neg hany, List.map_append, List.map_cons, List.map_nil]

theorem objInsert_mem_keys (acc : List (String × Json)) (k c : String) (v : Json) :
    c ∈ (objInsert acc k v).map Prod.fst ↔ c = k ∨ c ∈ acc.map Prod.fst := by
  rw [objInsert_keys]
  by_cases h : k ∈ acc.map Prod.fst
  · rw [if_pos h]
    constructor
    · exact Or.inr
    · rintro (rfl | hc)
      · exact h
      · exact hc
  · rw [if_neg h]
    simp only [List.mem_append, List.mem_singleton]
    tauto

theorem objInsert_keys_nodup (acc : List (String × Json)) (k : String) (v : Json)
    (h : (acc.map Prod.fst).Nodup) : ((objInsert acc k v).map Prod.fst).Nodup := by
  rw [objInsert_keys]
  by_cases hk : k ∈ acc.map Prod.fst
  · rw [if_pos hk]; exact h
  · rw [if_neg hk]
    simp only [List.nodup_append, List.nodup_cons, List.not_mem_nil,
      not_false_iff, List.nodup_nil, true_and, and_true]
    constructor
    · exact h
    · intro a ha
      simp only [List.mem_singleton]
      rintro rfl
      exact hk ha

theorem objInsert_mem (acc : List (String × Json)) (k : String) (v : Json)
    (p : String × Json) (h : p ∈ objInsert acc k v) : p ∈ acc ∨ p = (k, v) := by
  unfold objInsert at h
  by_cases hany : acc.any (fun p => p.1 = k) = true
  · rw [if_pos hany] at h
    obtain ⟨q, hq, hqe⟩ := List.mem_map.mp h
    by_cases hqk : q.1 = k
    · right
      rw [if_pos hqk] at hqe
      exact hqe.symm
    · left
      rw [if_neg hqk] at hqe
      exact hqe ▸ hq
  · rw [if_neg hany] at h
    rcases List.mem_append.mp h with hm | hm
    · exact Or.inl hm
    · exact Or.inr (List.mem_singleton.mp hm)

theorem lookupKey_append (l₁ l₂ : List (String × Json)) (c : String) :
    lookupKey (l₁ ++ l₂) c = Option.or (lookupKey l₁ c) (lookupKey l₂ c) := by
  induction l₁ with
  | nil => simp [lookupKey]
  | cons p rest ih =>
    obtain ⟨a, b⟩ := p
    simp only [List.cons_append, lookupKey]
    by_cases hca : c = a
    · simp [hca]
    · simp only [hca, if_false]
      exact ih

theorem lookupKey_map_self (k : String) (v : Json) :
    ∀ l : List (String × Json), (∃ p ∈ l, p.1 = k) →
      lookupKey (l.map (fun p => if p.1 = k then (k, v) else p)) k = some v := by
  intro l
  induction l with
  | nil => rintro ⟨p, hp, _⟩; cases hp
  | cons q rest ih =>
    rintro ⟨p, hp, hpk⟩
    obtain ⟨a, b⟩ := q
    simp only [List.map_cons]
    by_cases hak : a = k
    · rw [if_pos hak]
      simp [lookupKey]
    · rw [if_neg hak]
      simp only [lookupKey]
      rw [if_neg (fun he => hak he.symm)]
      apply ih
      rcases List.mem_cons.mp hp with rfl | hm
      · exact absurd hpk hak
      · exact ⟨p, hm, hpk⟩

theorem lookupKey_map_ne (k c : String) (v : Json) (h : c ≠ k) :
    ∀ l : List (String × Json),
      lookupKey (l.map (fun p => if p.1 = k then (k, v) else p)) c =
        lookupKey l c := by
  intro l
  induction l with
  | nil => rfl
  | cons q rest ih =>
    obtain ⟨a, b⟩ := q
    simp only [List.map_cons]
    by_cases hak : a = k
    · rw [if_pos hak]
      simp only [lookupKey]
      rw [if_neg h, if_neg (fun he : c = a => h (hak ▸ he))]
      exact ih
    · rw [if_neg hak]
      simp only [lookupKey]
      by_cases hca : c = a
      · rw [if_pos hca, if_pos hca]
      · rw [if_neg hca, if_neg hca]
        exact ih

theorem objInsert_lookupKey_self (acc : List (String × Json)) (k : String)
    (v : Json) : lookupKey (objInsert acc k v) k = some v := by
  unfold objInsert
  by_cases hany : acc.any (fun p => p.1 = k) = true
  · rw [if_pos hany]
    rw [List.any_eq_true] at hany
    obtain ⟨p0, hp0, hp0k⟩ := hany
    simp only [decide_eq_true_eq] at hp0k
    exact lookupKey_map_self k v acc ⟨p0, hp0, hp0k⟩
  · rw [if_neg hany]
    rw [lookupKey_append]
    have hnone : lookupKey acc k = none := by
      rw [List.any_eq_true] at hany
      push_neg at hany
      induction acc with
      | nil => rfl
      | cons q rest ih =>
        obtain ⟨a, b⟩ := q
        have hqa : ¬ (a = k) := by
          have := hany (a, b) (List.mem_cons_self _ _)
          simpa using this
        simp only [lookupKey, if_neg (fun he => hqa (Eq.symm he))]
        exact ih (fun p hp => hany p (List.mem_cons_of_mem _ hp))
    rw [hnone]
    simp [lookupKey]

theorem objInsert_lookupKey_ne (acc : List (String × Json)) (k c : String)
    (v : Json) (h : c ≠ k) :
    lookupKey (objInsert acc k v) c = lookupKey acc c := by
  unfold objInsert
  by_cases hany : acc.any (fun p => p.1 = k) = true
  · rw [if_pos hany]
    exact lookupKey_map_ne k c v h acc
  · rw [if_neg hany]
    rw [lookupKey_append]
    simp [lookupKey, if_neg h]

theorem insertList_mem_keys :
    ∀ (ps acc : List (String × Json)) (c : String),
      c ∈ (insertList acc ps).map Prod.fst ↔
        c ∈ acc.map Prod.fst ∨ c ∈ ps.map Prod.fst := by
  intro ps
  induction ps with
  | nil => intro acc c; simp [insertList]
  | cons p rest ih =>
    intro acc c
    obtain ⟨k, v⟩ := p
    simp only [insertList, List.map_cons, List.mem_cons]
    rw [ih, objInsert_mem_keys]
    tauto

theorem insertList_keys_nodup :
    ∀ (ps acc : List (String × Json)),
      (acc.map Prod.fst).Nodup → ((insertList acc ps).map Prod.fst).Nodup := by
  intro ps
  induction ps with
  | nil => intro acc h; exact h
  | cons p rest ih =>
    intro acc h
    obtain ⟨k, v⟩ := p
    simp only [insertList]
    exact ih _ (objInsert_keys_nodup acc k v h)

theorem insertList_mem :
    ∀ (ps acc : List (String × Json)) (p : String × Json),
      p ∈ insertList acc ps → p ∈ acc ∨ p ∈ ps := by
  intro ps
  induction ps with
  | nil => intro acc p h; exact Or.inl h
  | cons q rest ih =>
    intro acc p h
    obtain ⟨k, v⟩ := q
    simp only [insertList] at h
    rcases ih _ p h with hm | hm
    · rcases objInsert_mem acc k v p hm with hm2 | hm2
      · exact Or.inl hm2
      · exact Or.inr (List.mem_cons.mpr (Or.inl hm2))
    · exact Or.inr (List.mem_cons.mpr (Or.inr hm))

theorem insertList_lookupKey :
    ∀ (ps acc : List (String × Json)) (c : String),
      lookupKey (insertList acc ps) c =
        Option.or (lookupKey ps.reverse c) (lookupKey acc c) := by
  intro ps
  induction ps with
  | nil => intro acc c; simp [insertList, lookupKey]
  | cons p rest ih =>
    intro acc c
    obtain ⟨k, v⟩ := p
    simp only [insertList, List.reverse_cons]
    rw [ih, lookupKey_append, Option.or_assoc]
    cases hr : lookupKey rest.reverse c
    · simp only [Option.none_or]
      by_cases hck : c = k
      · subst hck
        rw [objInsert_lookupKey_self]
        simp [lookupKey]
      · rw [objInsert_lookupKey_ne acc k c v hck]
        simp [lookupKey, if_neg hck]
    · simp

theorem insertList_fresh :
    ∀ (ps acc : List (String × Json)),
      (acc.map Prod.fst ++ ps.map Prod.fst).Nodup →
        insertList acc ps = acc ++ ps := by
  intro ps
  induction ps with
  | nil => intro acc _; simp [insertList]
  | cons p rest ih =>
    intro acc h
    obtain ⟨k, v⟩ := p
    simp only [List.map_cons] at h
    have hknotin : k ∉ acc.map Prod.fst := by
      rw [List.nodup_append] at h
      intro hk
      exact h.2.2 hk (List.mem_cons_self _ _)
    have hins : objInsert acc k v = acc ++ [(k, v)] := by
      unfold objInsert
      rw [if_neg]
      rw [List.any_eq_true]
      rintro ⟨p, hp, hpk⟩
      simp only [decide_eq_true_eq] at hpk
      exact hknotin (List.mem_map.mpr ⟨p, hp, hpk⟩)
    rw [insertList, hins, ih (acc ++ [(k, v)])]
    · simp
    · simp only [List.map_append, List.map_cons, List.map_nil]
      have : acc.map Prod.fst ++ [k] ++ rest.map Prod.fst =
          acc.map Prod.fst ++ k :: rest.map Prod.fst := by
        simp
      rw [this]
      exact h

theorem insertList_nil_of_nodup (ps : List (String × Json))
    (h : (ps.map Prod.fst).Nodup) : insertList [] ps = ps := by
  have := insertList_fresh ps []
  simp only [List.map_nil, List.nil_append] at this
  exact (this h).trans (by simp)

/-! ### Structural theorems about the transformer -/

theorem shape_toCamelCaseParser :
    ∀ v, camelKeysInjective v = true → shape (toCamelCaseParser v) = shape v := by
  refine json_mem_ind _ ?_ ?_ ?_ ?_ ?_ ?_
  · intro s _; rfl
  · intro n _; rfl
  · intro b _; rfl
  · intro _; rfl
  · intro elems ih h
    simp only [camelKeysInjective] at h
    rw [camelKeysInjectiveArr_iff] at h
    simp only [toCamelCaseParser, shape]
    rw [camelArr_eq_map, shapeArr_eq_map, shapeArr_eq_map, List.map_map]
    congr 1
    refine List.map_congr_left (fun x hx => ?_)
    exact ih x hx (h x hx)
  · intro entries ih h
    simp only [camelKeysInjective, Bool.and_eq_true] at h
    obtain ⟨hdist, hvals⟩ := h
    rw [camelKeysInjectiveObj_iff] at hvals
    rw [distinctList_iff_nodup] at hdist
    simp only [toCamelCaseParser, shape]
    rw [camelObj_eq_insertList]
    have hkeys :
        ((entries.map
            (fun p => (camelCaseKey p.1, toCamelCaseParser p.2))).map
          Prod.fst) = entries.map (fun p => camelCaseKey p.1) := by
      rw [List.map_map]
      rfl
    rw [insertList_nil_of_nodup _ (hkeys ▸ hdist)]
    rw [shapeObj_eq_map, shapeObj_eq_map, List.map_map]
    congr 1
    refine List.map_congr_left (fun kv hkv => ?_)
    simp only [Function.comp_apply]
    rw [ih kv hkv (hvals kv hkv)]

theorem toCamelCaseParser_idem :
    ∀ v, keysCamel v = true →
      toCamelCaseParser (toCamelCaseParser v) = toCamelCaseParser v := by
  refine json_mem_ind _ ?_ ?_ ?_ ?_ ?_ ?_
  · intro s _; rfl
  · intro n _; rfl
  · intro b _; rfl
  · intro _; rfl
  · intro elems ih h
    simp only [keysCamel] at h
    rw [keysCamelArr_iff] at h
    simp only [toCamelCaseParser]
    congr 1
    rw [camelArr_eq_map, camelArr_eq_map, List.map_map]
    refine List.map_congr_left (fun x hx => ?_)
    exact ih x hx (h x hx)
  · intro entries ih h
    simp only [keysCamel] at h
    rw [keysCamelObj_iff] at h
    simp only [toCamelCaseParser]
    congr 1
    rw [camelObj_eq_insertList, camelObj_eq_insertList]
    set f : String × Json → String × Json :=
      fun p => (camelCaseKey p.1, toCamelCaseParser p.2) with hf
    have hout_mem : ∀ q ∈ insertList [] (entries.map f), q ∈ entries.map f := by
      intro q hq
      rcases insertList_mem (entries.map f) [] q hq with hm | hm
      · cases hm
      · exact hm
    have hfix : ∀ q ∈ insertList [] (entries.map f), f q = q := by
      intro q hq
      obtain ⟨p, hp, rfl⟩ := List.mem_map.mp (hout_mem q hq)
      have hkey : camelCaseKey p.1 = p.1 :=
        camelCaseKey_of_noDelimLetter p.1 (h p hp).1
      simp only [hf]
      rw [hkey]
      rw [hkey]
      rw [ih p hp (h p hp).2]
    have hmapfix :
        (insertList [] (entries.map f)).map f = insertList [] (entries.map f) := by
      have := List.map_congr_left (f := f) (g := id) hfix
      simpa using this
    rw [hmapfix]
    refine insertList_nil_of_nodup _ ?_
    exact insertList_keys_nodup (entries.map f) [] (by simp)

theorem dedup_length_lt_of_not_nodup {α : Type} [DecidableEq α] (l : List α)
    (h : ¬ l.Nodup) : l.dedup.length < l.length := by
  rcases Nat.lt_or_ge l.dedup.length l.length with h1 | h1
  · exact h1
  · exfalso
    have hs := l.dedup_sublist
    have heq : l.dedup.length = l.length := le_antisymm hs.length_le h1
    have := hs.eq_of_length heq
    exact h (this ▸ l.nodup_dedup)

theorem insertList_nil_length (ps : List (String × Json)) :
    (insertList [] ps).length = (ps.map Prod.fst).dedup.length := by
  have hlen : (insertList [] ps).length =
      ((insertList [] ps).map Prod.fst).length := (List.length_map _ _).symm
  rw [hlen]
  have hnd : ((insertList [] ps).map Prod.fst).Nodup :=
    insertList_keys_nodup ps [] (by simp)
  have hdd : ((ps.map Prod.fst).dedup).Nodup := (ps.map Prod.fst).nodup_dedup
  have hmem : ∀ c, c ∈ (insertList [] ps).map Prod.fst ↔
      c ∈ (ps.map Prod.fst).dedup := by
    intro c
    rw [List.mem_dedup, insertList_mem_keys]
    simp
  exact ((List.perm_ext_iff_of_nodup hnd hdd).2 hmem).length_eq

theorem lookupKey_camel_find (c : String) :
    ∀ l : List (String × Json),
      lookupKey
          (l.map (fun p => (camelCaseKey p.1, toCamelCaseParser p.2))) c =
        (l.find? (fun p => camelCaseKey p.1 == c)).map
          (fun p => toCamelCaseParser p.2) := by
  intro l
  induction l with
  | nil => rfl
  | cons p rest ih =>
    obtain ⟨k, v⟩ := p
    simp only [List.map_cons, lookupKey, List.find?]
    by_cases hc : c = camelCaseKey k
    · rw [if_pos hc]
      have : (camelCaseKey (k, v).1 == c) = true := by
        simp [hc]
      rw [this]
      rfl
    · rw [if_neg hc]
      have : (camelCaseKey (k, v).1 == c) = false := by
        simp only [beq_eq_false_iff_ne, ne_eq]
        exact fun he => hc he.symm
      rw [this]
      exact ih

/-- C9: when two distinct keys of the same input object rewrite to the
same camel-cased key, the output object holds that key exactly once,
bound to the transformed value of the last entry (in visitation order)
whose key rewrites to it, and the output object has strictly fewer keys
than the input object. -/
theorem toCamelCaseParser_key_collision (entries : List (String × Json))
    (i j : Fin entries.length) (hij : i ≠ j)
    (hkeys : (entries.get i).1 ≠ (entries.get j).1)
    (hcamel : camelCaseKey (entries.get i).1 = camelCaseKey (entries.get j).1) :
    ∃ out, toCamelCaseParser (.obj entries) = .obj out ∧
      (out.map Prod.fst).count (camelCaseKey (entries.get j).1) = 1 ∧
      lookupKey out (camelCaseKey (entries.get j).1) =
        (entries.reverse.find?
            (fun p => camelCaseKey p.1 == camelCaseKey (entries.get j).1)).map
          (fun p => toCamelCaseParser p.2) ∧
      out.length < entries.length := by
  classical
  set f : String × Json → String × Json :=
    fun p => (camelCaseKey p.1, toCamelCaseParser p.2) with hf
  set ps : List (String × Json) := entries.map f with hps
  set c : String := camelCaseKey (entries.get j).1 with hc
  refine ⟨insertList [] ps, ?_, ?_, ?_, ?_⟩
  · simp only [toCamelCaseParser]
    rw [camelObj_eq_insertList]
  · have hnd : ((insertList [] ps).map Prod.fst).Nodup :=
      insertList_keys_nodup ps [] (by simp)
    have hmem : c ∈ (insertList [] ps).map Prod.fst := by
      rw [insertList_mem_keys]
      right
      rw [hps, List.map_map]
      refine List.mem_map.mpr ⟨entries.get j, entries.get_mem _ _, ?_⟩
      rfl
    exact List.count_eq_one_of_mem hnd hmem
  · rw [insertList_lookupKey]
    simp only [lookupKey, Option.or_none]
    rw [hps, ← List.map_reverse]
    exact lookupKey_camel_find c entries.reverse
  · rw [insertList_nil_length]
    have hnotnodup : ¬ (ps.map Prod.fst).Nodup := by
      intro hn
      have hinj := List.nodup_iff_injective_get.mp hn
      have hli : (ps.map Prod.fst).length = entries.length := by
        rw [List.length_map, hps, List.length_map]
      have hgi : (ps.map Prod.fst).get (Fin.cast hli.symm i) =
          camelCaseKey (entries.get i).1 := by
        simp [hps, hf, List.get_map]
      have hgj : (ps.map Prod.fst).get (Fin.cast hli.symm j) =
          camelCaseKey (entries.get j).1 := by
        simp [hps, hf, List.get_map]
      have heq : (ps.map Prod.fst).get (Fin.cast hli.symm i) =
          (ps.map Prod.fst).get (Fin.cast hli.symm j) := by
        rw [hgi, hgj, hcamel]
      have hcast := hinj heq
      apply hij
      have hvi : i.val = j.val := by
        simpa [Fin.ext_iff] using hcast
      exact Fin.ext hvi
    have hlt := dedup_length_lt_of_not_nodup _ hnotnodup
    calc (ps.map Prod.fst).dedup.length
        < (ps.map Prod.fst).length := hlt
      _ = entries.length := by rw [List.length_map, hps, List.length_map]

/-! ### Lemmas about the validator and the handlers -/

theorem noDelimLetter_of_no_delim :
    ∀ l : List Char, l.all (fun c => !isDelim c) = true → noDelimLetter l = true := by
  intro l
  induction l with
  | nil => intro _; rfl
  | cons c rest ih =>
    intro h
    simp only [List.all_cons, Bool.and_eq_true, Bool.not_eq_true'] at h
    match rest, ih, h with
    | [], _, _ => rfl
    | d :: rest, ih, h =>
      simp only [noDelimLetter, Bool.and_eq_true, Bool.not_eq_true']
      refine ⟨by rw [h.1]; rfl, ?_⟩
      exact ih h.2

theorem validateUsers_parts (q : Query) (h : validateUsers q = []) :
    checkPerPage q = [] ∧ checkSince q = [] ∧ checkSearch q = [] ∧
      checkSort q = [] ∧ checkOrder q = [] ∧ checkPage q = [] := by
  unfold validateUsers at h
  simp only [List.append_eq_nil] at h
  tauto

theorem checkSearch_length (q : Query) (s : String) (hs : q "search" = some s)
    (h : checkSearch q = []) : 3 ≤ s.length := by
  unfold checkSearch at h
  rw [hs] at h
  have h' : (if 3 ≤ s.length then ([] : List ValidationError)
      else [searchError s]) = [] := h
  by_cases h3 : 3 ≤ s.length
  · exact h3
  · rw [if_neg h3] at h'
    cases h'

theorem truthy_of_three (s : String) (h : 3 ≤ s.length) :
    truthy (some s) = true := by
  have hne : s ≠ "" := by
    intro he
    subst he
    simp at h
  simp [truthy, hne]

theorem checkPerPage_congr (q q' : Query) (h : q' "perPage" = q "perPage") :
    checkPerPage q' = checkPerPage q := by
  unfold checkPerPage
  rw [h]

theorem checkSince_skip (q : Query) (s : String) (h : q "search" = some s) :
    checkSince q = [] := by
  unfold checkSince
  rw [h]

theorem checkSearch_congr (q q' : Query) (h : q' "search" = q "search") :
    checkSearch q' = checkSearch q := by
  unfold checkSearch
  rw [h]

theorem checkSort_congr (q q' : Query) (h1 : q' "search" = q "search")
    (h2 : q' "sort" = q "sort") : checkSort q' = checkSort q := by
  unfold checkSort
  rw [h1, h2]

theorem checkOrder_congr (q q' : Query) (h1 : q' "search" = q "search")
    (h2 : q' "order" = q "order") : checkOrder q' = checkOrder q := by
  unfold checkOrder
  rw [h1, h2]

theorem checkPage_congr (q q' : Query) (h1 : q' "search" = q "search")
    (h2 : q' "page" = q "page") : checkPage q' = checkPage q := by
  unfold checkPage
  rw [h1, h2]

theorem effPerPage_congr (q q' : Query) (h : q' "perPage" = q "perPage") :
    effPerPage q' = effPerPage q := by
  unfold effPerPage
  rw [h]

/-! ### The claimed properties -/

/-- C1 fails as stated: the transformer does not always preserve object
key count.  The two distinct keys of the input object both rewrite to
the key aB, so the output object has one key while the input has two. -/
theorem transformer_not_always_key_count_preserving :
    toCamelCaseParser (Json.obj [("a_b", Json.null), ("a-b", Json.null)]) =
      Json.obj [("aB", Json.null)] ∧
    topKeyCount (Json.obj [("a_b", Json.null), ("a-b", Json.null)]) = 2 ∧
    topKeyCount
        (toCamelCaseParser (Json.obj [("a_b", Json.null), ("a-b", Json.null)])) =
      1 :=
  ⟨rfl, rfl, rfl⟩

/-- C1 (amended): for every JSON-like value in which, within each object
at every nesting level, no two entries rewrite to the same camel-cased
key, the output of the Key-Casing Transformer is structurally isomorphic
to the input: it has the same shape (same array lengths, same nesting,
same leaf values, same object key counts), differing only in key
spelling. -/
theorem transformer_shape_isomorphic (v : Json)
    (h : camelKeysInjective v = true) :
    shape (toCamelCaseParser v) = shape v :=
  shape_toCamelCaseParser v h

/-- Witness for C1 at a concrete input. -/
theorem transformer_shape_isomorphic_witness :
    camelKeysInjective (Json.obj [("site_admin", Json.bool true),
        ("items_list", Json.arr [Json.num 1, Json.null])]) = true ∧
    shape (toCamelCaseParser (Json.obj [("site_admin", Json.bool true),
        ("items_list", Json.arr [Json.num 1, Json.null])])) =
      shape (Json.obj [("site_admin", Json.bool true),
        ("items_list", Json.arr [Json.num 1, Json.null])]) :=
  ⟨rfl, transformer_shape_isomorphic _ rfl⟩

/-- C2: the transformer rewrites each key by replacing every occurrence
of a delimiter immediately followed by a letter with the uppercased
letter; keys without delimiters are unchanged; consecutive delimiters or
a trailing delimiter are left as-is at that point; scalars map to
themselves and empty objects and arrays map to empty objects and arrays;
and the spec example transforms as stated. -/
theorem transformer_key_rewriting :
    toCamelCaseParser (Json.obj [("site_admin", Json.bool true),
        ("avatar-url", Json.str "x"),
        ("nested_obj", Json.obj [("gravatar_id", Json.str "y")])]) =
      Json.obj [("siteAdmin", Json.bool true), ("avatarUrl", Json.str "x"),
        ("nestedObj", Json.obj [("gravatarId", Json.str "y")])] ∧
    (∀ s, toCamelCaseParser (Json.str s) = Json.str s) ∧
    (∀ n, toCamelCaseParser (Json.num n) = Json.num n) ∧
    (∀ b, toCamelCaseParser (Json.bool b) = Json.bool b) ∧
    toCamelCaseParser Json.null = Json.null ∧
    toCamelCaseParser (Json.obj []) = Json.obj [] ∧
    toCamelCaseParser (Json.arr []) = Json.arr [] ∧
    (∀ key : String, key.data.all (fun c => !isDelim c) = true →
      camelCaseKey key = key) ∧
    camelCaseKey "site_admin" = "siteAdmin" ∧
    camelCaseKey "avatar-url" = "avatarUrl" ∧
    camelCaseKey "foo__bar" = "foo_Bar" ∧
    camelCaseKey "a_" = "a_" := by
  refine ⟨rfl, fun s => rfl, fun n => rfl, fun b => rfl, rfl, rfl, rfl,
    ?_, rfl, rfl, rfl, rfl⟩
  intro key h
  exact camelCaseKey_of_noDelimLetter key (noDelimLetter_of_no_delim key.data h)

/-- Witness for C2 at a concrete key without delimiters. -/
theorem transformer_key_rewriting_witness :
    ("login" : String).data.all (fun c => !isDelim c) = true ∧
    camelCaseKey "login" = "login" :=
  ⟨rfl, transformer_key_rewriting.2.2.2.2.2.2.2.1 "login" rfl⟩

/-- C3: for the `/users` endpoint the `sort`, `order` and `page` rules
are evaluated only when `search` is present and the `since` rule only
when `search` is absent; a skipped rule contributes no failure whatever
the value of its parameter, so any value of `sort` supplied without
`search` yields no rejection and the request proceeds to the upstream
list call. -/
theorem guarded_rules_skipped :
    (∀ q : Query, q "search" = none →
      checkSort q = [] ∧ checkOrder q = [] ∧ checkPage q = []) ∧
    (∀ (q : Query) (s : String), q "search" = some s → checkSince q = []) ∧
    (∀ v : String, validateUsers (qOf [("sort", v)]) = [] ∧
      routeUsers (qOf [("sort", v)]) = .upstream (.listUsers none "30")) := by
  refine ⟨?_, ?_, ?_⟩
  · intro q hsearch
    refine ⟨?_, ?_, ?_⟩
    · unfold checkSort
      rw [hsearch]
    · unfold checkOrder
      rw [hsearch]
    · unfold checkPage
      rw [hsearch]
  · intro q s hsearch
    unfold checkSince
    rw [hsearch]
  · intro v
    exact ⟨rfl, rfl⟩

/-- Witness for C3 at concrete queries. -/
theorem guarded_rules_skipped_witness :
    qOf [("sort", "followers")] "search" = none ∧
    checkSort (qOf [("sort", "followers")]) = [] ∧
    qOf [("search", "alice")] "search" = some "alice" ∧
    checkSince (qOf [("search", "alice"), ("since", "no")]) = [] :=
  ⟨rfl, (guarded_rules_skipped.1 (qOf [("sort", "followers")]) rfl).1, rfl,
    guarded_rules_skipped.2.1 (qOf [("search", "alice"), ("since", "no")])
      "alice" rfl⟩

/-- C4: validation evaluates every applicable rule and aggregates every
failure; when at least one rule fails, each route answers 400 with a
body listing all collected failures and issues no upstream call.  At the
concrete query with both a bad `perPage` and a short `search`, both
failures are reported. -/
theorem validation_aggregates_failures :
    (∀ q : Query, validateUsers q ≠ [] →
      routeUsers q = .badRequest (validateUsers q) ∧
      ∀ up, usersResponse q up = ⟨400, errorsBody (validateUsers q)⟩) ∧
    (∀ u : String, checkUsername u ≠ [] →
      routeUserStep u = .badRequest (checkUsername u) ∧
      ∀ up, userResponse u up = ⟨400, errorsBody (checkUsername u)⟩) ∧
    validateUsers (qOf [("perPage", "101"), ("search", "ab")]) =
      [perPageError "101", searchError "ab"] := by
  refine ⟨?_, ?_, rfl⟩
  · intro q hne
    have hroute : routeUsers q = .badRequest (validateUsers q) := by
      unfold routeUsers
      rw [if_neg hne]
    refine ⟨hroute, fun up => ?_⟩
    unfold usersResponse
    rw [hroute]
  · intro u hne
    have hstep : routeUserStep u = .badRequest (checkUsername u) := by
      unfold routeUserStep
      rw [if_neg hne]
    refine ⟨hstep, fun up => ?_⟩
    unfold userResponse
    rw [hstep]

/-- Witness for C4 at a concrete failing query and username. -/
theorem validation_aggregates_failures_witness :
    validateUsers (qOf [("perPage", "0")]) ≠ [] ∧
    routeUsers (qOf [("perPage", "0")]) =
      .badRequest (validateUsers (qOf [("perPage", "0")])) ∧
    checkUsername "-octocat" ≠ [] ∧
    routeUserStep "-octocat" = .badRequest (checkUsername "-octocat") :=
  ⟨by decide,
    (validation_aggregates_failures.1 (qOf [("perPage", "0")]) (by decide)).1,
    by decide,
    (validation_aggregates_failures.2.1 "-octocat" (by decide)).1⟩

/-- C5: for `GET /users/:username`, an invalid username (per the
valid-username pattern: alphanumeric and single hyphens, no leading,
trailing or double hyphen, 1 to 39 characters) yields 400 with
structured errors; an upstream not-found yields 404 with
`{ error: "User not found" }`; any other upstream failure yields 500
with `{ error: "Something went wrong" }`; upstream success yields 200
with the camel-cased user object.  "octo-cat" is accepted, "-octocat"
and "octocat--2" are rejected. -/
theorem username_route_behaviour :
    isGithubUsername "octo-cat" = true ∧
    isGithubUsername "-octocat" = false ∧
    isGithubUsername "octocat--2" = false ∧
    (∀ (u : String) (r : Except Nat Json), isGithubUsername u = false →
      userResponse u r = ⟨400, errorsBody [usernameError u]⟩) ∧
    (∀ (u : String) (b : Json), isGithubUsername u = true →
      userResponse u (.ok b) = ⟨200, toCamelCaseParser b⟩) ∧
    (∀ u : String, isGithubUsername u = true →
      userResponse u (.error 404) = ⟨404, jsonError "User not found"⟩) ∧
    (∀ (u : String) (st : Nat), isGithubUsername u = true → st ≠ 404 →
      userResponse u (.error st) =
        ⟨500, jsonError "Something went wrong"⟩) := by
  have hbad : ∀ u : String, isGithubUsername u = false →
      routeUserStep u = .badRequest [usernameError u] := by
    intro u hu
    have hchk : checkUsername u = [usernameError u] := by
      unfold checkUsername
      rw [hu]
      rfl
    unfold routeUserStep
    rw [hchk]
    rw [if_neg (by simp)]
  have hok : ∀ u : String, isGithubUsername u = true →
      routeUserStep u = .callGetUser u := by
    intro u hu
    have hchk : checkUsername u = [] := by
      unfold checkUsername
      rw [hu]
      rfl
    unfold routeUserStep
    rw [hchk, if_pos rfl]
  refine ⟨rfl, rfl, rfl, ?_, ?_, ?_, ?_⟩
  · intro u r hu
    unfold userResponse
    rw [hbad u hu]
  · intro u b hu
    unfold userResponse
    rw [hok u hu]
  · intro u hu
    unfold userResponse
    rw [hok u hu]
    rfl
  · intro u st hu hst
    unfold userResponse
    rw [hok u hu]
    simp only [if_neg hst]

/-- Witness for C5 at concrete usernames and upstream outcomes. -/
theorem username_route_behaviour_witness :
    isGithubUsername "nonexistent-user" = true ∧
    userResponse "nonexistent-user" (.error 404) =
      ⟨404, jsonError "User not found"⟩ ∧
    isGithubUsername "octo..cat" = false ∧
    userResponse "octo..cat" (.ok Json.null) =
      ⟨400, errorsBody [usernameError "octo..cat"]⟩ ∧
    (500 : Nat) ≠ 404 ∧
    userResponse "octocat" (.error 500) =
      ⟨500, jsonError "Something went wrong"⟩ :=
  ⟨rfl, username_route_behaviour.2.2.2.2.2.1 "nonexistent-user" rfl, rfl,
    username_route_behaviour.2.2.2.1 "octo..cat" (.ok Json.null) rfl,
    by decide,
    username_route_behaviour.2.2.2.2.2.2 "octocat" 500 rfl (by decide)⟩

/-- C6: every validated `/users` request issues exactly one upstream
call: without `search` the list-users operation with `since` and
`per_page` (renamed from `perPage`, 30 substituted when `perPage` is
absent); with `search` the search-users operation with the composed
query string plus `sort`, `order`, `page` and `per_page`. -/
theorem upstream_call_shape :
    (∀ q : Query, validateUsers q = [] → q "search" = none →
      routeUsers q = .upstream (.listUsers (q "since") (effPerPage q))) ∧
    (∀ (q : Query) (s : String), validateUsers q = [] → q "search" = some s →
      routeUsers q = .upstream (.searchUsers
        (s ++ " in:login name email type:user")
        (q "sort") (q "order") (q "page") (effPerPage q))) ∧
    (∀ q : Query, q "perPage" = none → effPerPage q = "30") := by
  refine ⟨?_, ?_, ?_⟩
  · intro q hv hs
    unfold routeUsers
    rw [if_pos hv, hs]
    rfl
  · intro q s hv hs
    have hlen : 3 ≤ s.length :=
      checkSearch_length q s hs (validateUsers_parts q hv).2.2.1
    unfold routeUsers
    rw [if_pos hv, hs, if_pos (truthy_of_three s hlen)]
    rfl
  · intro q hpp
    unfold effPerPage
    rw [hpp]

/-- Witness for C6 at concrete validated queries. -/
theorem upstream_call_shape_witness :
    validateUsers (qOf [("since", "5")]) = [] ∧
    routeUsers (qOf [("since", "5")]) =
      .upstream (.listUsers (some "5") "30") ∧
    validateUsers (qOf [("search", "alice"), ("perPage", "50")]) = [] ∧
    routeUsers (qOf [("search", "alice"), ("perPage", "50")]) =
      .upstream (.searchUsers "alice in:login name email type:user"
        none none none "50") ∧
    effPerPage (qOf []) = "30" :=
  ⟨rfl, upstream_call_shape.1 (qOf [("since", "5")]) rfl rfl, rfl,
    upstream_call_shape.2.1 (qOf [("search", "alice"), ("perPage", "50")])
      "alice" rfl rfl,
    upstream_call_shape.2.2 (qOf []) rfl⟩

/-- C7: on any JSON-like value whose object keys, at every nesting
level, are already fully camel-cased (no delimiter followed by a
letter), applying the Key-Casing Transformer twice gives the same
result as applying it once. -/
theorem transformer_idempotent_on_camel (v : Json) (h : keysCamel v = true) :
    toCamelCaseParser (toCamelCaseParser v) = toCamelCaseParser v :=
  toCamelCaseParser_idem v h

/-- Witness for C7 at a concrete camel-cased value. -/
theorem transformer_idempotent_on_camel_witness :
    keysCamel (Json.obj [("siteAdmin", Json.bool true),
        ("items", Json.arr [Json.obj [("nodeId", Json.str "1")]])]) = true ∧
    toCamelCaseParser (toCamelCaseParser (Json.obj
        [("siteAdmin", Json.bool true),
          ("items", Json.arr [Json.obj [("nodeId", Json.str "1")]])])) =
      toCamelCaseParser (Json.obj [("siteAdmin", Json.bool true),
        ("items", Json.arr [Json.obj [("nodeId", Json.str "1")]])]) :=
  ⟨rfl, transformer_idempotent_on_camel _ rfl⟩

/-- C8: the unmatched-route middleware sets status 404 for every
request; an HTML-accepting caller is redirected to /docs, and any other
caller receives the JSON body with the resource-not-found message. -/
theorem unmatched_route_fallback :
    (∀ acceptsHtml : Bool, (notFoundMiddleware acceptsHtml).status = 404) ∧
    notFoundMiddleware true = ⟨404, some "/docs", none⟩ ∧
    notFoundMiddleware false =
      ⟨404, none, some (jsonError "Resource isn\x27t found")⟩ := by
  refine ⟨fun b => ?_, rfl, rfl⟩
  cases b <;> rfl

/-- Witness for C9 at a concrete two-key collision. -/
theorem toCamelCaseParser_key_collision_witness :
    ("a_b" : String) ≠ "a-b" ∧
    camelCaseKey "a_b" = camelCaseKey "a-b" ∧
    (∃ out,
      toCamelCaseParser (Json.obj [("a_b", Json.num 1), ("a-b", Json.num 2)]) =
        Json.obj out ∧
      (out.map Prod.fst).count (camelCaseKey "a-b") = 1 ∧
      lookupKey out (camelCaseKey "a-b") =
        (([("a_b", Json.num 1), ("a-b", Json.num 2)] :
            List (String × Json)).reverse.find?
          (fun p => camelCaseKey p.1 == camelCaseKey "a-b")).map
          (fun p => toCamelCaseParser p.2) ∧
      out.length < 2) :=
  ⟨by decide, rfl,
    toCamelCaseParser_key_collision [("a_b", Json.num 1), ("a-b", Json.num 2)]
      ⟨0, by decide⟩ ⟨1, by decide⟩ (by decide) (by decide) rfl⟩

/-- C10: when `search` is present, the `since` parameter has no effect
on the `/users` endpoint: changing (or removing) `since` leaves the
collected validation failures, the upstream call decided by the
handler, and the response unchanged, because `since` is neither
validated nor forwarded in that case. -/
theorem since_no_effect_with_search (q : Query) (s : String) (v : Option String)
    (hs : q "search" = some s) :
    validateUsers (setParam q "since" v) = validateUsers q ∧
    routeUsers (setParam q "since" v) = routeUsers q ∧
    ∀ up, usersResponse (setParam q "since" v) up = usersResponse q up := by
  have hsearch : setParam q "since" v "search" = q "search" := by
    simp [setParam]
  have hpp : setParam q "since" v "perPage" = q "perPage" := by
    simp [setParam]
  have hsort : setParam q "since" v "sort" = q "sort" := by
    simp [setParam]
  have horder : setParam q "since" v "order" = q "order" := by
    simp [setParam]
  have hpage : setParam q "since" v "page" = q "page" := by
    simp [setParam]
  have hs' : setParam q "since" v "search" = some s := by rw [hsearch, hs]
  have hval : validateUsers (setParam q "since" v) = validateUsers q := by
    unfold validateUsers
    rw [checkPerPage_congr q _ hpp, checkSearch_congr q _ hsearch,
      checkSort_congr q _ hsearch hsort, checkOrder_congr q _ hsearch horder,
      checkPage_congr q _ hsearch hpage, checkSince_skip _ s hs',
      checkSince_skip q s hs]
  have heff : effPerPage (setParam q "since" v) = effPerPage q :=
    effPerPage_congr q _ hpp
  have hroute : routeUsers (setParam q "since" v) = routeUsers q := by
    unfold routeUsers
    rw [hval, hsearch, hsort, horder, hpage, heff]
    by_cases hv : validateUsers q = []
    · rw [if_pos hv, if_pos hv, hs]
      have hlen : 3 ≤ s.length :=
        checkSearch_length q s hs (validateUsers_parts q hv).2.2.1
      rw [if_pos (truthy_of_three s hlen), if_pos (truthy_of_three s hlen)]
    · rw [if_neg hv, if_neg hv]
  refine ⟨hval, hroute, fun up => ?_⟩
  unfold usersResponse
  rw [hroute]

/-- Witness for C10 at a concrete query. -/
theorem since_no_effect_with_search_witness :
    qOf [("search", "alice")] "search" = some "alice" ∧
    routeUsers (setParam (qOf [("search", "alice")]) "since" (some "7")) =
      routeUsers (qOf [("search", "alice")]) :=
  ⟨rfl,
    (since_no_effect_with_search (qOf [("search", "alice")]) "alice"
      (some "7") rfl).2.1⟩
